import Mathlib

/-!
Verification of the journal-hours parser (src/journal_hours.py).

The embedding models calendar dates as proleptic-Gregorian ordinal day
numbers (Python `date.toordinal`) and datetimes as absolute minute counts:
`assemble_datetime d t = d * 1440 + t`.  Python `datetime` values are
totally ordered and `timedelta(days=1)` is 1440 minutes, so comparisons
and the day-rollover update translate directly.  Durations (`timedelta`)
are signed minute counts (ℤ), or exact rationals where `main` divides them.

Journal lines are embedded after classification: `parse_date` and the
string-shape part of `parse_time` are pure total recognizers of the text
(`YYYY-MM-DD` for dates, `"start HH:MM"` / `"end HH:MM"` for markers, with
`0 ≤ 60*HH+MM < 1440` guaranteed by the `%H:%M` parse), so a line is
carried as its classification: a date ordinal, a marker with its
minute-of-day, or an ignored line.
-/

namespace JournalHours

/-- Action tag of a time-marker line: `start` is the source's literal
token "start"; `stop` renders the source's literal token "end". -/
inductive Action
  | start
  | stop
deriving DecidableEq

/-- A journal line after classification: `date d` is a line whose whole
text parses as a `YYYY-MM-DD` date with ordinal `d`; `mark a t` is a line
of shape "<action> <HH:MM>" with `t = 60*HH + MM`; `other` is any line
recognized as neither (ignored by the source). -/
inductive Line
  | date (d : Nat)
  | mark (a : Action) (t : Nat)
  | other
deriving DecidableEq

/-- Well-formedness of a classified line: a time produced by the source's
`%H:%M` parse is a minute-of-day below 24*60.  Date and ignored lines
carry no time component. -/
def Line.wf : Line → Prop
  | .mark _ t => t < 1440
  | _ => True

instance : DecidablePred Line.wf := fun l =>
  match l with
  | .date _ => .isTrue trivial
  | .mark _ t => Nat.decLt t 1440
  | .other => .isTrue trivial

/-- Kinds of `IntervalError` raised by `process` / `parse_time`, carrying
the data each message interpolates.  The three in-loop errors carry the
index produced by `enumerate(lines)` (0-based); the message of the
no-date-context error interpolates no line number at all. -/
inductive IntervalError
  | noDateContext
  | unexpectedStart (lineNumber : Nat)
  | unexpectedEnd (lineNumber : Nat)
  | dateOrder (lineNumber : Nat)
deriving DecidableEq

/-- `assemble_datetime(d, t)`: combine a date and a wall-clock time into a
datetime, here an absolute minute count (one day = 1440 minutes). -/
def assemble_datetime (d : Nat) (t : Nat) : Nat := d * 1440 + t

/-- `parse_time(line, current_date)`: `none` for a line that is not a time
marker; for a marker line it raises `IntervalError` ("Found interval start
before any date markers.", no line number) when `current_date` is unset,
else returns the action together with the assembled datetime. -/
def parse_time (line : Line) (current_date : Option Nat) :
    Except IntervalError (Option (Action × Nat)) :=
  match line with
  | .mark a t =>
      match current_date with
      | none => Except.error IntervalError.noDateContext
      | some d => Except.ok (some (a, assemble_datetime d t))
  | _ => Except.ok none

/-- Loop state of `process`: `current_date`, `current_interval` (the
source's zero-or-one-element list holding the pending start timestamp),
and `intervals_by_date`, the day sections accumulated in order. -/
structure ProcState where
  current_date : Option Nat
  current_interval : Option Nat
  intervals_by_date : List (Nat × List (Nat × Nat))
deriving DecidableEq

/-- `intervals_by_date[-1][1].append(iv)`: append an interval to the last
day section.  The source only executes this with a nonempty list (a
pending start implies a date header has been seen), so the `[]` case is
unreachable in every run starting from the initial state. -/
def appendToLast : List (Nat × List (Nat × Nat)) → (Nat × Nat) →
    List (Nat × List (Nat × Nat))
  | [], _ => []
  | [s], iv => [(s.1, s.2 ++ [iv])]
  | s :: s2 :: rest, iv => s :: appendToLast (s2 :: rest) iv

/-- One iteration of the `process` loop at `enumerate` index
`line_number`: try the line as a date header (set `current_date`, reject
an out-of-order date, append a fresh section), then as a time marker
(record a pending start, or close the pending interval, rolling the end
forward one day when it is strictly before the start). -/
def processStep (line_number : Nat) (line : Line) (s : ProcState) :
    Except IntervalError ProcState :=
  let dateStep : Except IntervalError ProcState :=
    match line with
    | .date d =>
        match s.intervals_by_date.getLast? with
        | some last =>
            if d ≤ last.1 then
              Except.error (IntervalError.dateOrder line_number)
            else
              Except.ok ⟨some d, s.current_interval,
                s.intervals_by_date ++ [(d, [])]⟩
        | none =>
            Except.ok ⟨some d, s.current_interval,
              s.intervals_by_date ++ [(d, [])]⟩
    | _ => Except.ok s
  match dateStep with
  | .error e => Except.error e
  | .ok s1 =>
      match parse_time line s1.current_date with
      | .error e => Except.error e
      | .ok none => Except.ok s1
      | .ok (some (a, t)) =>
          match a with
          | .start =>
              match s1.current_interval with
              | none => Except.ok { s1 with current_interval := some t }
              | some _ => Except.error (IntervalError.unexpectedStart line_number)
          | .stop =>
              match s1.current_interval with
              | some ts =>
                  Except.ok { s1 with
                    current_interval := none,
                    intervals_by_date := appendToLast s1.intervals_by_date
                      (ts, if ts > t then t + 1440 else t) }
              | none => Except.error (IntervalError.unexpectedEnd line_number)

/-- The `process` loop over `enumerate(lines)`, starting at index `n`. -/
def processLines (n : Nat) (lines : List Line) (s : ProcState) :
    Except IntervalError ProcState :=
  match lines with
  | [] => Except.ok s
  | line :: rest =>
      match processStep n line s with
      | .error e => Except.error e
      | .ok s1 => processLines (n + 1) rest s1

/-- End-of-input handling of `process`: a still-open interval whose
current date is today and whose start is strictly before now is closed at
now and appended to the final day section; otherwise the state is
returned unchanged.  `today` is `date.today()` as an ordinal and `now` is
`datetime.now()` as an absolute minute count, both sampled at processing
time and passed in as parameters. -/
def finishProcess (today now : Nat) (s : ProcState) :
    List (Nat × List (Nat × Nat)) :=
  match s.current_interval with
  | some ts =>
      if s.current_date = some today ∧ ts < now then
        appendToLast s.intervals_by_date (ts, now)
      else s.intervals_by_date
  | none => s.intervals_by_date

/-- `process(lines)`: run the loop from the initial state (no date, no
pending start, no sections) and apply the end-of-input step. -/
def process (today now : Nat) (lines : List Line) :
    Except IntervalError (List (Nat × List (Nat × Nat))) :=
  match processLines 0 lines ⟨none, none, []⟩ with
  | .error e => Except.error e
  | .ok s => Except.ok (finishProcess today now s)

/-- `interval_sum(intervals)`: total += end - start over the list, as a
signed duration in minutes. -/
def interval_sum (intervals : List (Nat × Nat)) : Int :=
  intervals.foldl (fun total iv => total + ((iv.2 : Int) - (iv.1 : Int))) 0

/-! The aggregation and reporting layer of `main` (after argument
parsing), modelled from lines 32-142 of the source. -/

/-- Parsed command-line arguments as they stand after `argparse` and
`parse_date` succeed: flags, optional integer rate and retainer, and the
optional start / end date ordinals. -/
structure Args where
  json : Bool
  rate : Option Int
  average : Bool
  retainer : Option Int
  start_arg : Option Nat
  end_arg : Option Nat
deriving DecidableEq

/-- The end date after its default: the given end date, else
`date.today()`. -/
def endDateOf (args : Args) (today : Nat) : Nat :=
  match args.end_arg with
  | none => today
  | some e => e

/-- The argument check "start_date is not None and end_date < start_date"
that makes `main` print an error and exit 1. -/
def badRangeArgs (args : Args) (today : Nat) : Bool :=
  match args.start_arg with
  | some sd => decide (endDateOf args today < sd)
  | none => false

/-- The list comprehension filtering `intervals_by_date`: keep sections
with at least one interval whose date is ≥ the given start date (if any)
and ≤ the end date (never `None` here, having been defaulted to today). -/
def filterSections (start_arg : Option Nat) (end_date : Nat)
    (ibd : List (Nat × List (Nat × Nat))) : List (Nat × List (Nat × Nat)) :=
  ibd.filter fun sec =>
    !sec.2.isEmpty &&
      (match start_arg with
       | none => true
       | some sd => decide (sd ≤ sec.1)) &&
      decide (sec.1 ≤ end_date)

/-- `all_intervals`: the intervals of the filtered sections, accumulated
in order by `all_intervals.extend(intervals)`. -/
def allIntervals (secs : List (Nat × List (Nat × Nat))) : List (Nat × Nat) :=
  secs.foldl (fun acc sec => acc ++ sec.2) []

/-- Python truthiness of `args.retainer`: present and nonzero. -/
def retainerTruthy (args : Args) : Bool :=
  match args.retainer with
  | some r => decide (r ≠ 0)
  | none => false

/-- Observable outcome of one `main` run (what is printed last and the
exit status it implies). -/
inductive MainOutcome
  | badArgs
  | parseFailure (e : IntervalError)
  | noIntervalsFound
  | jsonOutput (data : List (Nat × List (Nat × Nat)))
  | noHours
  | retainerTypeError
  | report
deriving DecidableEq

/-- Exit status of each outcome: `badArgs` and `noHours` call
`sys.exit(1)`; an uncaught `IntervalError`, the uncaught
`ValueError('No intervals found.')` and the uncaught `TypeError` from
formatting `total_due = None` all terminate the interpreter with status 1
and a traceback; the JSON early return and the full text report finish
normally with status 0. -/
def MainOutcome.exitCode : MainOutcome → Nat
  | .badArgs => 1
  | .parseFailure _ => 1
  | .noIntervalsFound => 1
  | .jsonOutput _ => 0
  | .noHours => 1
  | .retainerTypeError => 1
  | .report => 0

/-- Control flow of `main` after argument parsing: validate the date
range, run `process`, filter, fill the start date from the first filtered
section (raising `ValueError` when there is none), emit JSON and return if
requested, report "No hours recorded." and exit 1 on a zero total, crash
formatting `None` when a truthy retainer is given without a rate, and
otherwise print the full report. -/
def main_run (args : Args) (today now : Nat) (lines : List Line) : MainOutcome :=
  if badRangeArgs args today then MainOutcome.badArgs
  else
    match process today now lines with
    | .error e => MainOutcome.parseFailure e
    | .ok ibd =>
        let filtered := filterSections args.start_arg (endDateOf args today) ibd
        match (match args.start_arg with
               | some sd => some sd
               | none => filtered.head?.map Prod.fst) with
        | none => MainOutcome.noIntervalsFound
        | some _ =>
            if args.json then MainOutcome.jsonOutput filtered
            else if interval_sum (allIntervals filtered) = 0 then MainOutcome.noHours
            else if retainerTruthy args && args.rate.isNone then
              MainOutcome.retainerTypeError
            else MainOutcome.report

/-- The average computation of `main`:
`days = (end_date - start_date).days + 1`, `weeks = days / 7`,
`average = total_elapsed / weeks`, with the duration as an exact rational
minute count (Python evaluates `days / 7` and the `timedelta` division in
float arithmetic; the rational value is the real number it approximates). -/
def average_per_week (total_elapsed : ℚ) (start_date end_date : Nat) : ℚ :=
  let days : ℚ := (end_date : ℚ) - (start_date : ℚ) + 1
  let weeks : ℚ := days / 7
  total_elapsed / weeks

/-- Modelled from the spec: the formula the spec writes for
`average_per_week`, namely
`total_duration / ((end_date - start_date).days + 1) / 7`, for comparison
with the implementation above. -/
def average_per_week_specFormula (total_elapsed : ℚ) (start_date end_date : Nat) : ℚ :=
  total_elapsed / ((end_date : ℚ) - (start_date : ℚ) + 1) / 7

/-- The average block of `main`: executed only when `--average` was given
and a start date is available (`args.average and start_date is not None`);
otherwise no figure is produced. -/
def averageOutput (averageFlag : Bool) (start_date : Option Nat)
    (end_date : Nat) (total_elapsed : ℚ) : Option ℚ :=
  if averageFlag then
    match start_date with
    | some sd => some (average_per_week total_elapsed sd end_date)
    | none => none
  else none

/-! Helper lemmas about `appendToLast`. -/

theorem appendToLast_concat (d : Nat) (ivs : List (Nat × Nat)) (iv : Nat × Nat) :
    ∀ init : List (Nat × List (Nat × Nat)),
      appendToLast (init ++ [(d, ivs)]) iv = init ++ [(d, ivs ++ [iv])]
  | [] => rfl
  | [_] => rfl
  | x :: y :: rest => by
      show x :: appendToLast ((y :: rest) ++ [(d, ivs)]) iv =
        x :: ((y :: rest) ++ [(d, ivs ++ [iv])])
      rw [appendToLast_concat d ivs iv (y :: rest)]

theorem appendToLast_map_fst (iv : Nat × Nat) :
    ∀ l : List (Nat × List (Nat × Nat)),
      (appendToLast l iv).map Prod.fst = l.map Prod.fst
  | [] => rfl
  | [_] => rfl
  | x :: y :: rest => by
      show x.1 :: (appendToLast (y :: rest) iv).map Prod.fst =
        x.1 :: (y :: rest).map Prod.fst
      rw [appendToLast_map_fst iv (y :: rest)]

/-! Invariants maintained by the `process` loop. -/

/-- Interval/section well-formedness: in a section dated `d`, every
interval runs from a timestamp no later than the last minute of day `d`
to a timestamp no earlier than the first minute of day `d` and strictly
before the end of day `d + 1` (the overnight-rollover bound), with
`start ≤ end`. -/
def SectionsWF (ibd : List (Nat × List (Nat × Nat))) : Prop :=
  ∀ sec ∈ ibd, ∀ iv ∈ sec.2,
    iv.1 ≤ iv.2 ∧ iv.1 < (sec.1 + 1) * 1440 ∧
      sec.1 * 1440 ≤ iv.2 ∧ iv.2 < (sec.1 + 2) * 1440

/-- Structural invariant of the loop state: no date context means no
sections and no pending start; a date context means the section list ends
with a section for the current date; section dates are strictly
increasing. -/
def InvA (s : ProcState) : Prop :=
  (s.current_date = none → s.intervals_by_date = [] ∧ s.current_interval = none) ∧
  (∀ d, s.current_date = some d →
    ∃ init ivs, s.intervals_by_date = init ++ [(d, ivs)]) ∧
  List.Chain' (· < ·) (s.intervals_by_date.map Prod.fst)

/-- Timing invariant of the loop state: a pending start lies strictly
before the end of the current day, and all closed sections are
well-formed. -/
def InvB (s : ProcState) : Prop :=
  (∀ ts, s.current_interval = some ts →
    ∃ d, s.current_date = some d ∧ ts < (d + 1) * 1440) ∧
  SectionsWF s.intervals_by_date

/-! Characterization of single loop iterations. -/

theorem processStep_other (n : Nat) (s : ProcState) :
    processStep n Line.other s = Except.ok s := rfl

theorem processStep_date_nil (n d : Nat) (s : ProcState)
    (h : s.intervals_by_date = []) :
    processStep n (Line.date d) s =
      Except.ok ⟨some d, s.current_interval, s.intervals_by_date ++ [(d, [])]⟩ := by
  simp [processStep, parse_time, h]

theorem processStep_date_ok (n dd : Nat) (s : ProcState)
    (init : List (Nat × List (Nat × Nat))) (d0 : Nat) (ivs0 : List (Nat × Nat))
    (hd : s.intervals_by_date = init ++ [(d0, ivs0)]) (hlt : d0 < dd) :
    processStep n (Line.date dd) s =
      Except.ok ⟨some dd, s.current_interval, s.intervals_by_date ++ [(dd, [])]⟩ := by
  simp [processStep, parse_time, hd, List.getLast?_concat, Nat.not_le.mpr hlt]

theorem processStep_date_err (n dd : Nat) (s : ProcState) (d0 : Nat)
    (ivs0 : List (Nat × Nat))
    (hd : s.intervals_by_date.getLast? = some (d0, ivs0)) (hle : dd ≤ d0) :
    processStep n (Line.date dd) s =
      Except.error (IntervalError.dateOrder n) := by
  simp [processStep, parse_time, hd, hle]

theorem processStep_mark_noDate (n : Nat) (a : Action) (t : Nat) (s : ProcState)
    (h : s.current_date = none) :
    processStep n (Line.mark a t) s = Except.error IntervalError.noDateContext := by
  simp [processStep, parse_time, h]

theorem processStep_start_ok (n t : Nat) (s : ProcState) (d : Nat)
    (hd : s.current_date = some d) (hp : s.current_interval = none) :
    processStep n (Line.mark Action.start t) s =
      Except.ok ⟨s.current_date, some (assemble_datetime d t), s.intervals_by_date⟩ := by
  simp [processStep, parse_time, hd, hp]

theorem processStep_start_err (n t : Nat) (s : ProcState) (d ts : Nat)
    (hd : s.current_date = some d) (hp : s.current_interval = some ts) :
    processStep n (Line.mark Action.start t) s =
      Except.error (IntervalError.unexpectedStart n) := by
  simp [processStep, parse_time, hd, hp]

theorem processStep_stop_ok (n t : Nat) (s : ProcState) (d ts : Nat)
    (hd : s.current_date = some d) (hp : s.current_interval = some ts) :
    processStep n (Line.mark Action.stop t) s =
      Except.ok ⟨s.current_date, none,
        appendToLast s.intervals_by_date
          (ts, if assemble_datetime d t < ts then assemble_datetime d t + 1440
            else assemble_datetime d t)⟩ := by
  simp [processStep, parse_time, hd, hp, GT.gt]

theorem processStep_stop_err (n t : Nat) (s : ProcState) (d : Nat)
    (hd : s.current_date = some d) (hp : s.current_interval = none) :
    processStep n (Line.mark Action.stop t) s =
      Except.error (IntervalError.unexpectedEnd n) := by
  simp [processStep, parse_time, hd, hp]

/-! Preservation of the invariants. -/

theorem concat_last_eq {α : Type} {l i1 i2 : List α} {a b : α}
    (h1 : l = i1 ++ [a]) (h2 : l = i2 ++ [b]) : a = b := by
  have ha : l.getLast? = some a := by rw [h1]; exact List.getLast?_concat _
  have hb : l.getLast? = some b := by rw [h2]; exact List.getLast?_concat _
  rw [ha] at hb
  exact Option.some.inj hb

theorem sectionsWF_append_empty (ibd : List (Nat × List (Nat × Nat))) (d : Nat)
    (h : SectionsWF ibd) : SectionsWF (ibd ++ [(d, [])]) := by
  intro sec hmem iv hiv
  rcases List.mem_append.1 hmem with h1 | h1
  · exact h sec h1 iv hiv
  · rw [List.mem_singleton] at h1
    subst h1
    exact absurd hiv (List.not_mem_nil iv)

theorem sectionsWF_append_last (init : List (Nat × List (Nat × Nat))) (d : Nat)
    (ivs : List (Nat × Nat)) (a b : Nat)
    (h : SectionsWF (init ++ [(d, ivs)]))
    (h1 : a ≤ b) (h2 : a < (d + 1) * 1440) (h3 : d * 1440 ≤ b)
    (h4 : b < (d + 2) * 1440) :
    SectionsWF (init ++ [(d, ivs ++ [(a, b)])]) := by
  intro sec hmem iv0 hiv0
  rcases List.mem_append.1 hmem with hm | hm
  · exact h sec (List.mem_append_left _ hm) iv0 hiv0
  · rw [List.mem_singleton] at hm
    subst hm
    rcases List.mem_append.1 hiv0 with h2m | h2m
    · exact h (d, ivs) (List.mem_append_right _ (List.mem_singleton.2 rfl)) iv0 h2m
    · rw [List.mem_singleton] at h2m
      subst h2m
      exact ⟨h1, h2, h3, h4⟩

theorem chain_append_date {ibd init : List (Nat × List (Nat × Nat))}
    {d0 dd : Nat} {ivs0 : List (Nat × Nat)}
    (hc : List.Chain' (· < ·) (ibd.map Prod.fst))
    (hd : ibd = init ++ [(d0, ivs0)]) (hlt : d0 < dd) :
    List.Chain' (· < ·) ((ibd ++ [(dd, [])]).map Prod.fst) := by
  rw [List.map_append]
  refine List.chain'_append.2 ⟨hc, List.chain'_singleton _, ?_⟩
  intro x hx y hy
  have hg : (ibd.map Prod.fst).getLast? = some d0 := by
    rw [List.getLast?_map, hd, List.getLast?_concat]
    rfl
  rw [hg] at hx
  simp only [Option.mem_def, Option.some.injEq] at hx
  simp only [List.map_cons, List.map_nil, List.head?_cons, Option.mem_def,
    Option.some.injEq] at hy
  omega

theorem processStep_invA (n : Nat) (line : Line) (s s2 : ProcState)
    (hs : InvA s) (hok : processStep n line s = Except.ok s2) : InvA s2 := by
  obtain ⟨hs1, hs2, hs3⟩ := hs
  cases line with
  | other =>
      rw [processStep_other] at hok
      injection hok with h
      subst h
      exact ⟨hs1, hs2, hs3⟩
  | date d =>
      rcases s.intervals_by_date.eq_nil_or_concat' with hnil | ⟨init, ⟨d0, ivs0⟩, hd⟩
      · rw [processStep_date_nil n d s hnil] at hok
        injection hok with h
        subst h
        refine ⟨fun h => Option.noConfusion h, fun d2 h2 => ?_, ?_⟩
        · obtain rfl : d = d2 := Option.some.inj h2
          exact ⟨[], [], by rw [hnil]⟩
        · show List.Chain' (· < ·) ((s.intervals_by_date ++ [(d, [])]).map Prod.fst)
          rw [hnil]
          simp
      · have hlt : d0 < d := by
          by_contra hge
          rw [processStep_date_err n d s d0 ivs0
            (by rw [hd]; exact List.getLast?_concat _) (Nat.le_of_not_lt hge)] at hok
          exact Except.noConfusion hok
        rw [processStep_date_ok n d s init d0 ivs0 hd hlt] at hok
        injection hok with h
        subst h
        refine ⟨fun h => Option.noConfusion h, fun d2 h2 => ?_, ?_⟩
        · obtain rfl : d = d2 := Option.some.inj h2
          exact ⟨s.intervals_by_date, [], rfl⟩
        · exact chain_append_date hs3 hd hlt
  | mark a t =>
      cases hcd : s.current_date with
      | none =>
          rw [processStep_mark_noDate n a t s hcd] at hok
          exact Except.noConfusion hok
      | some d =>
          cases a with
          | start =>
              cases hp : s.current_interval with
              | none =>
                  rw [processStep_start_ok n t s d hcd hp] at hok
                  injection hok with h
                  subst h
                  refine ⟨fun h => ?_, hs2, hs3⟩
                  · have h2 : s.current_date = none := h
                    rw [hcd] at h2
                    exact Option.noConfusion h2
              | some ts =>
                  rw [processStep_start_err n t s d ts hcd hp] at hok
                  exact Except.noConfusion hok
          | stop =>
              cases hp : s.current_interval with
              | some ts =>
                  rw [processStep_stop_ok n t s d ts hcd hp] at hok
                  injection hok with h
                  subst h
                  refine ⟨fun h => ?_, fun d2 h2 => ?_, ?_⟩
                  · have h3 : s.current_date = none := h
                    rw [hcd] at h3
                    exact Option.noConfusion h3
                  · have h3 : s.current_date = some d2 := h2
                    obtain ⟨init, ivs, hdec⟩ := hs2 d2 h3
                    refine ⟨init, ivs ++ [(ts, if assemble_datetime d t < ts
                      then assemble_datetime d t + 1440 else assemble_datetime d t)], ?_⟩
                    show appendToLast s.intervals_by_date _ = _
                    rw [hdec, appendToLast_concat]
                  · show List.Chain' (· < ·)
                      ((appendToLast s.intervals_by_date _).map Prod.fst)
                    rw [appendToLast_map_fst]
                    exact hs3
              | none =>
                  rw [processStep_stop_err n t s d hcd hp] at hok
                  exact Except.noConfusion hok

theorem processStep_invB (n : Nat) (line : Line) (s s2 : ProcState)
    (hwf : line.wf) (hA : InvA s) (hB : InvB s)
    (hok : processStep n line s = Except.ok s2) : InvB s2 := by
  obtain ⟨hA1, hA2, hA3⟩ := hA
  obtain ⟨hB1, hB2⟩ := hB
  cases line with
  | other =>
      rw [processStep_other] at hok
      injection hok with h
      subst h
      exact ⟨hB1, hB2⟩
  | date d =>
      rcases s.intervals_by_date.eq_nil_or_concat' with hnil | ⟨init, ⟨d0, ivs0⟩, hd⟩
      · rw [processStep_date_nil n d s hnil] at hok
        injection hok with h
        subst h
        constructor
        · intro ts hp
          have hp2 : s.current_interval = some ts := hp
          cases hcd : s.current_date with
          | none =>
              have h2 := (hA1 hcd).2
              rw [h2] at hp2
              exact Option.noConfusion hp2
          | some d1 =>
              obtain ⟨i1, v1, hdec⟩ := hA2 d1 hcd
              rw [hnil] at hdec
              exact absurd hdec (by simp)
        · exact sectionsWF_append_empty _ _ hB2
      · have hlt : d0 < d := by
          by_contra hge
          rw [processStep_date_err n d s d0 ivs0
            (by rw [hd]; exact List.getLast?_concat _) (Nat.le_of_not_lt hge)] at hok
          exact Except.noConfusion hok
        rw [processStep_date_ok n d s init d0 ivs0 hd hlt] at hok
        injection hok with h
        subst h
        constructor
        · intro ts hp
          have hp2 : s.current_interval = some ts := hp
          obtain ⟨d1, hcd1, hbound⟩ := hB1 ts hp2
          obtain ⟨i1, v1, hdec1⟩ := hA2 d1 hcd1
          have heq : ((d1, v1) : Nat × List (Nat × Nat)) = (d0, ivs0) :=
            concat_last_eq hdec1 hd
          have hd1 : d1 = d0 := congrArg Prod.fst heq
          exact ⟨d, rfl, by omega⟩
        · exact sectionsWF_append_empty _ _ hB2
  | mark a t =>
      cases hcd : s.current_date with
      | none =>
          rw [processStep_mark_noDate n a t s hcd] at hok
          exact Except.noConfusion hok
      | some d =>
          cases a with
          | start =>
              cases hp : s.current_interval with
              | none =>
                  rw [processStep_start_ok n t s d hcd hp] at hok
                  injection hok with h
                  subst h
                  have hw : t < 1440 := hwf
                  constructor
                  · intro ts hp2
                    have hp3 : some (assemble_datetime d t) = some ts := hp2
                    obtain rfl : assemble_datetime d t = ts := Option.some.inj hp3
                    refine ⟨d, hcd, ?_⟩
                    show d * 1440 + t < (d + 1) * 1440
                    omega
                  · exact hB2
              | some ts =>
                  rw [processStep_start_err n t s d ts hcd hp] at hok
                  exact Except.noConfusion hok
          | stop =>
              cases hp : s.current_interval with
              | some ts =>
                  rw [processStep_stop_ok n t s d ts hcd hp] at hok
                  injection hok with h
                  subst h
                  have hw : t < 1440 := hwf
                  obtain ⟨d1, hcd1, hbound⟩ := hB1 ts hp
                  rw [hcd] at hcd1
                  obtain rfl : d = d1 := Option.some.inj hcd1
                  obtain ⟨init, ivs, hdec⟩ := hA2 d hcd
                  constructor
                  · intro ts2 hp2
                    exact Option.noConfusion hp2
                  · show SectionsWF (appendToLast s.intervals_by_date
                      (ts, if assemble_datetime d t < ts
                        then assemble_datetime d t + 1440 else assemble_datetime d t))
                    rw [hdec, appendToLast_concat]
                    rw [hdec] at hB2
                    refine sectionsWF_append_last init d ivs ts _ hB2 ?_ ?_ ?_ ?_
                    · unfold assemble_datetime
                      split <;> omega
                    · omega
                    · unfold assemble_datetime
                      split <;> omega
                    · unfold assemble_datetime
                      split <;> omega
              | none =>
                  rw [processStep_stop_err n t s d hcd hp] at hok
                  exact Except.noConfusion hok

theorem processLines_invA :
    ∀ (lines : List Line) (n : Nat) (s s2 : ProcState),
      InvA s → processLines n lines s = Except.ok s2 → InvA s2
  | [], _, _, _, h, hok => by
      injection hok with h2
      exact h2 ▸ h
  | line :: rest, n, s, s2, h, hok => by
      cases hstep : processStep n line s with
      | error e =>
          rw [processLines, hstep] at hok
          exact Except.noConfusion hok
      | ok s1 =>
          rw [processLines, hstep] at hok
          exact processLines_invA rest (n + 1) s1 s2 (processStep_invA n line s s1 h hstep) hok

theorem processLines_invB :
    ∀ (lines : List Line) (n : Nat) (s s2 : ProcState),
      (∀ l ∈ lines, l.wf) → InvA s → InvB s →
      processLines n lines s = Except.ok s2 → InvB s2
  | [], _, _, _, _, _, hB, hok => by
      injection hok with h2
      exact h2 ▸ hB
  | line :: rest, n, s, s2, hwf, hA, hB, hok => by
      cases hstep : processStep n line s with
      | error e =>
          rw [processLines, hstep] at hok
          exact Except.noConfusion hok
      | ok s1 =>
          rw [processLines, hstep] at hok
          exact processLines_invB rest (n + 1) s1 s2
            (fun l hl => hwf l (List.mem_cons_of_mem line hl))
            (processStep_invA n line s s1 hA hstep)
            (processStep_invB n line s s1 (hwf line (List.mem_cons_self line rest)) hA hB hstep)
            hok

theorem invA_init : InvA ⟨none, none, []⟩ := by
  refine ⟨fun _ => ⟨rfl, rfl⟩, fun d h => Option.noConfusion h, ?_⟩
  simp

theorem invB_init : InvB ⟨none, none, []⟩ := by
  refine ⟨fun ts h => Option.noConfusion h, ?_⟩
  intro sec hmem
  exact absurd hmem (List.not_mem_nil sec)

theorem finishProcess_map_fst (today now : Nat) (s : ProcState) :
    (finishProcess today now s).map Prod.fst =
      s.intervals_by_date.map Prod.fst := by
  unfold finishProcess
  cases s.current_interval with
  | none => rfl
  | some ts =>
      show (if s.current_date = some today ∧ ts < now
        then appendToLast s.intervals_by_date (ts, now)
        else s.intervals_by_date).map Prod.fst = _
      by_cases hc : s.current_date = some today ∧ ts < now
      · rw [if_pos hc]
        exact appendToLast_map_fst _ _
      · rw [if_neg hc]

theorem finishProcess_sectionsWF (today now : Nat) (s : ProcState)
    (hA : InvA s) (hB : InvB s)
    (h1 : today * 1440 ≤ now) (h2 : now < (today + 1) * 1440) :
    SectionsWF (finishProcess today now s) := by
  unfold finishProcess
  cases hp : s.current_interval with
  | none => exact hB.2
  | some ts =>
      show SectionsWF (if s.current_date = some today ∧ ts < now
        then appendToLast s.intervals_by_date (ts, now)
        else s.intervals_by_date)
      by_cases hc : s.current_date = some today ∧ ts < now
      · rw [if_pos hc]
        obtain ⟨hcd, hlt⟩ := hc
        obtain ⟨d1, hcd1, hbound⟩ := hB.1 ts hp
        rw [hcd] at hcd1
        obtain rfl : today = d1 := Option.some.inj hcd1
        obtain ⟨init, ivs, hdec⟩ := hA.2.1 today hcd
        rw [hdec, appendToLast_concat]
        have hB2 := hB.2
        rw [hdec] at hB2
        refine sectionsWF_append_last init today ivs ts now hB2 ?_ ?_ ?_ ?_
        · omega
        · omega
        · omega
        · omega
      · rw [if_neg hc]
        exact hB.2


theorem interval_sum_shift (l : List (Nat × Nat)) :
    ∀ a : Int,
      l.foldl (fun total iv => total + ((iv.2 : Int) - (iv.1 : Int))) a =
        a + interval_sum l := by
  induction l with
  | nil => intro a; simp [interval_sum]
  | cons iv rest ih =>
      intro a
      have h1 : List.foldl (fun total iv => total + ((iv.2 : Int) - (iv.1 : Int)))
          a (iv :: rest) =
          a + ((iv.2 : Int) - (iv.1 : Int)) + interval_sum rest := by
        rw [List.foldl_cons, ih]
      have h2 : interval_sum (iv :: rest) =
          0 + ((iv.2 : Int) - (iv.1 : Int)) + interval_sum rest := by
        show List.foldl (fun total iv => total + ((iv.2 : Int) - (iv.1 : Int))) 0
          (iv :: rest) = _
        rw [List.foldl_cons, ih]
      rw [h1, h2]
      ring

/-- C9: `interval_sum` of an empty interval list is the zero duration,
and it is a homomorphism under list concatenation:
`interval_sum (A ++ B) = interval_sum A + interval_sum B`. -/
theorem interval_sum_monoid :
    interval_sum [] = 0 ∧
      ∀ A B : List (Nat × Nat),
        interval_sum (A ++ B) = interval_sum A + interval_sum B := by
  refine ⟨rfl, ?_⟩
  intro A B
  show (A ++ B).foldl _ 0 = _
  rw [List.foldl_append, interval_sum_shift B]
  rfl

/-- C5 (amended): when a start date is available and `--average` is
given, the figure equals `total_duration / (((end_date - start_date).days
+ 1) / 7)`, i.e. `total * 7 / days` — not the spec's
`total_duration / days / 7` (see the counterexample); with no start date
the computation is skipped and no figure is produced. -/
theorem average_formula :
    (∀ (total_elapsed : ℚ) (sd ed : Nat),
        averageOutput true (some sd) ed total_elapsed =
          some (total_elapsed * 7 / ((ed : ℚ) - (sd : ℚ) + 1))) ∧
      ∀ (flag : Bool) (ed : Nat) (total_elapsed : ℚ),
        averageOutput flag none ed total_elapsed = none := by
  constructor
  · intro total sd ed
    simp only [averageOutput, average_per_week, if_true]
    rw [div_div_eq_mul_div]
  · intro flag ed total
    cases flag <;> rfl

/-- C5 counterexample: for a total of 420 minutes over a one-day range,
the implemented figure is `420 / (1/7) = 2940` minutes per week, whereas
the claim's formula `420 / 1 / 7` gives 60 — the two disagree. -/
theorem average_formula_cex :
    average_per_week 420 0 0 = 2940 ∧
      average_per_week_specFormula 420 0 0 = 60 ∧ (2940 : ℚ) ≠ 60 := by
  refine ⟨?_, ?_, by norm_num⟩
  · norm_num [average_per_week]
  · norm_num [average_per_week_specFormula]

/-- C2 (amended): when the end timestamp `te` assembled on the current
date is strictly before the pending start `ts`, the assembler advances
`te` by one day and closes `(ts, te + 1 day)`; when `ts = te` the
degenerate interval is closed unchanged, with no advance (see the
counterexample).  The journal 2024-01-05 / start 22:00 / end 02:00 yields
the single interval (2024-01-05 22:00, 2024-01-06 02:00) of exactly 240
minutes (4 h), spanning into 2024-01-06 (ordinal 738891). -/
theorem process_overnight :
    (∀ (n t : Nat) (s : ProcState) (d ts : Nat),
        s.current_date = some d → s.current_interval = some ts →
        assemble_datetime d t < ts →
        processStep n (Line.mark Action.stop t) s =
          Except.ok ⟨s.current_date, none,
            appendToLast s.intervals_by_date (ts, assemble_datetime d t + 1440)⟩) ∧
      process 0 0 [Line.date 738890, Line.mark .start 1320, Line.mark .stop 120] =
          Except.ok [(738890, [(738890 * 1440 + 1320, 738891 * 1440 + 120)])] ∧
        interval_sum [(738890 * 1440 + 1320, 738891 * 1440 + 120)] = 240 := by
  refine ⟨?_, by rfl, by rfl⟩
  intro n t s d ts hd hp hlt
  rw [processStep_stop_ok n t s d ts hd hp, if_pos hlt]

/-- C2 witness: a pending start 22:00 on day 10 closed by an end 02:00
assembled on day 10 rolls the end forward to day 11. -/
theorem process_overnight_witness :
    processStep 5 (Line.mark Action.stop 120)
        ⟨some 10, some (10 * 1440 + 1320), [(10, [])]⟩ =
      Except.ok ⟨some 10, none, [(10, [(10 * 1440 + 1320, 10 * 1440 + 120 + 1440)])]⟩ :=
  process_overnight.1 5 120 _ 10 (10 * 1440 + 1320) rfl rfl (by decide)

/-- C2 counterexample: with `ts = te` (start 09:30, end 09:30) the code
does not advance the end by one day: the closed interval is the
degenerate `(ts, ts)`, not `(ts, ts + 1 day)` as the claim's `ts ≥ te`
rollover condition would require. -/
theorem process_overnight_cex :
    process 0 0 [Line.date 738890, Line.mark .start 570, Line.mark .stop 570] =
        Except.ok [(738890, [(738890 * 1440 + 570, 738890 * 1440 + 570)])] ∧
      (738890 * 1440 + 570 : Nat) ≠ 738890 * 1440 + 570 + 1440 :=
  ⟨by rfl, by omega⟩

/-- C3 (amended): each in-loop interval structure error — unexpected
start, unexpected end, and date out of order — carries the 0-based
`enumerate` index `n` of the offending line, not a 1-based number, and
the no-date-context error carries no line number at all; a start
immediately followed by another start raises the unexpected-start error
citing the second start's 0-based index (2 for input line 3 below). -/
theorem process_error_line_index :
    (∀ (n t : Nat) (s : ProcState) (d ts : Nat),
        s.current_date = some d → s.current_interval = some ts →
        processStep n (Line.mark Action.start t) s =
          Except.error (IntervalError.unexpectedStart n)) ∧
      (∀ (n t : Nat) (s : ProcState) (d : Nat),
          s.current_date = some d → s.current_interval = none →
          processStep n (Line.mark Action.stop t) s =
            Except.error (IntervalError.unexpectedEnd n)) ∧
      (∀ (n dd : Nat) (s : ProcState) (d0 : Nat) (ivs0 : List (Nat × Nat)),
          s.intervals_by_date.getLast? = some (d0, ivs0) → dd ≤ d0 →
          processStep n (Line.date dd) s =
            Except.error (IntervalError.dateOrder n)) ∧
      (∀ (n : Nat) (a : Action) (t : Nat) (s : ProcState),
          s.current_date = none →
          processStep n (Line.mark a t) s =
            Except.error IntervalError.noDateContext) ∧
      process 0 0 [Line.date 738890, Line.mark .start 540, Line.mark .start 600] =
        Except.error (IntervalError.unexpectedStart 2) :=
  ⟨processStep_start_err, processStep_stop_err, processStep_date_err,
    processStep_mark_noDate, by rfl⟩

/-- C3 witness: concrete instantiations of the four conditional parts —
each error kind raised at a chosen index carries exactly that index, and
the no-date-context error carries none. -/
theorem process_error_line_index_witness :
    processStep 7 (Line.mark Action.start 60) ⟨some 10, some 300, []⟩ =
        Except.error (IntervalError.unexpectedStart 7) ∧
      processStep 9 (Line.mark Action.stop 60) ⟨some 10, none, [(10, [])]⟩ =
        Except.error (IntervalError.unexpectedEnd 9) ∧
      processStep 4 (Line.date 5) ⟨some 6, none, [(6, [])]⟩ =
        Except.error (IntervalError.dateOrder 4) ∧
      processStep 3 (Line.mark Action.stop 60) ⟨none, none, []⟩ =
        Except.error IntervalError.noDateContext :=
  ⟨process_error_line_index.1 7 60 _ 10 300 rfl rfl,
    process_error_line_index.2.1 9 60 _ 10 rfl rfl,
    process_error_line_index.2.2.1 4 5 _ 6 [] rfl (by omega),
    process_error_line_index.2.2.2.1 3 Action.stop 60 _ rfl⟩

/-- C3 counterexample: in the journal [date, start, start] the second
start marker is input line 3 in 1-based numbering, but the raised error
cites 2 — the 0-based `enumerate` index — refuting the claimed 1-based
numbering. -/
theorem process_error_line_index_cex :
    process 0 0 [Line.date 738890, Line.mark .start 540, Line.mark .start 600] =
        Except.error (IntervalError.unexpectedStart 2) ∧ (2 : Nat) ≠ 3 :=
  ⟨by rfl, by omega⟩

/-- C4 (amended): a start marker processed while a start is pending
always raises the unexpected-start error (a pending start implies a date
context, so no other error can preempt it); an end marker processed with
a date context and no pending start raises the unexpected-end error, but
an end marker before any date header raises the no-date-context error
instead (see the counterexample); and any in-loop error aborts processing
at once — the remaining lines are never examined and no result is
produced. -/
theorem process_pairing_errors :
    (∀ (n t : Nat) (s : ProcState) (d ts : Nat),
        s.current_date = some d → s.current_interval = some ts →
        processStep n (Line.mark Action.start t) s =
          Except.error (IntervalError.unexpectedStart n)) ∧
      (∀ (n t : Nat) (s : ProcState) (d : Nat),
          s.current_date = some d → s.current_interval = none →
          processStep n (Line.mark Action.stop t) s =
            Except.error (IntervalError.unexpectedEnd n)) ∧
      ∀ (n : Nat) (line : Line) (s : ProcState) (e : IntervalError)
        (rest : List Line),
        processStep n line s = Except.error e →
        processLines n (line :: rest) s = Except.error e := by
  refine ⟨processStep_start_err, processStep_stop_err, ?_⟩
  intro n line s e rest hstep
  rw [processLines, hstep]

/-- C4 witness: concrete instantiations — a double start, an end without
a pending start, and the immediate abort regardless of later lines. -/
theorem process_pairing_errors_witness :
    processStep 0 (Line.mark Action.start 600) ⟨some 10, some 300, []⟩ =
        Except.error (IntervalError.unexpectedStart 0) ∧
      processStep 1 (Line.mark Action.stop 600) ⟨some 10, none, [(10, [])]⟩ =
        Except.error (IntervalError.unexpectedEnd 1) ∧
      processLines 4 [Line.mark Action.stop 600, Line.date 99]
          ⟨some 10, none, [(10, [])]⟩ =
        Except.error (IntervalError.unexpectedEnd 4) :=
  ⟨process_pairing_errors.1 0 600 _ 10 300 rfl rfl,
    process_pairing_errors.2.1 1 600 _ 10 rfl rfl,
    process_pairing_errors.2.2 4 (Line.mark Action.stop 600) _ _ [Line.date 99]
      (by rfl)⟩

/-- C4 counterexample: an end marker with no pending start but also no
preceding date header raises the no-date-context error, not the
unexpected-end error the claim requires of every such end marker. -/
theorem process_pairing_errors_cex :
    process 0 0 [Line.mark Action.stop 600] =
      Except.error IntervalError.noDateContext := by rfl

/-- C10: a date header `dd` processed while a start is pending (and in
order) neither errors nor clears the pending marker — the new state keeps
the pending timestamp and gains a fresh empty section; concretely, the
journal 2024-01-05 / start 22:00 / 2024-01-06 / end 02:00 closes the
interval (2024-01-05 22:00, 2024-01-06 02:00), whose start timestamp lies
on the earlier date (strictly before the first minute of 2024-01-06), and
appends it to 2024-01-06's day section. -/
theorem process_carryover :
    (∀ (n dd : Nat) (s : ProcState) (init : List (Nat × List (Nat × Nat)))
        (d0 : Nat) (ivs0 : List (Nat × Nat)) (ts : Nat),
        s.intervals_by_date = init ++ [(d0, ivs0)] → d0 < dd →
        s.current_interval = some ts →
        processStep n (Line.date dd) s =
          Except.ok ⟨some dd, some ts, s.intervals_by_date ++ [(dd, [])]⟩) ∧
      process 0 0 [Line.date 738890, Line.mark .start 1320, Line.date 738891,
          Line.mark .stop 120] =
        Except.ok [(738890, []),
          (738891, [(738890 * 1440 + 1320, 738891 * 1440 + 120)])] ∧
        738890 * 1440 + 1320 < 738891 * 1440 := by
  refine ⟨?_, by rfl, by omega⟩
  intro n dd s init d0 ivs0 ts hd hlt hp
  rw [processStep_date_ok n dd s init d0 ivs0 hd hlt, hp]

/-- C10 witness: a date header arriving over a pending start preserves
the pending timestamp and opens the new day section. -/
theorem process_carryover_witness :
    processStep 2 (Line.date 7) ⟨some 3, some 100, [(3, [])]⟩ =
      Except.ok ⟨some 7, some 100, [(3, []), (7, [])]⟩ :=
  process_carryover.1 2 7 _ [] 3 [] 100 rfl (by omega) rfl

theorem finishProcess_pending (today now : Nat) (s : ProcState) (ts : Nat)
    (hp : s.current_interval = some ts) :
    finishProcess today now s =
      if s.current_date = some today ∧ ts < now
      then appendToLast s.intervals_by_date (ts, now)
      else s.intervals_by_date := by
  unfold finishProcess
  rw [hp]

/-- C6: when the loop ends with a pending start `ts`, the synthesized
interval `(ts, now)` is appended to the final day section exactly when
the current date equals today and `ts` is strictly before now; in every
other case the open marker is discarded and the sections are returned
unchanged — in both cases `process` succeeds without error. -/
theorem process_open_final :
    ∀ (today now : Nat) (lines : List Line) (s : ProcState) (ts : Nat)
      (init : List (Nat × List (Nat × Nat))) (d : Nat) (ivs : List (Nat × Nat)),
      processLines 0 lines ⟨none, none, []⟩ = Except.ok s →
      s.current_interval = some ts →
      s.intervals_by_date = init ++ [(d, ivs)] →
      (s.current_date = some today ∧ ts < now →
        process today now lines = Except.ok (init ++ [(d, ivs ++ [(ts, now)])])) ∧
        (¬(s.current_date = some today ∧ ts < now) →
          process today now lines = Except.ok (init ++ [(d, ivs)])) := by
  intro today now lines s ts init d ivs hpl hp hdec
  constructor
  · intro hc
    unfold process
    rw [hpl]
    show Except.ok (finishProcess today now s) = _
    rw [finishProcess_pending today now s ts hp, if_pos hc, hdec,
      appendToLast_concat]
  · intro hc
    unfold process
    rw [hpl]
    show Except.ok (finishProcess today now s) = _
    rw [finishProcess_pending today now s ts hp, if_neg hc, hdec]

/-- C6 witness: a journal left open on day 5 at 600 minutes, processed
with today = 5 and now = minute 700 of day 5, is closed at now. -/
theorem process_open_final_witness :
    process 5 7900 [Line.date 5, Line.mark Action.start 600] =
      Except.ok [(5, [(7800, 7900)])] :=
  (process_open_final 5 7900 [Line.date 5, Line.mark Action.start 600]
    ⟨some 5, some 7800, [(5, [])]⟩ 7800 [] 5 [] (by rfl) rfl rfl).1
    ⟨rfl, by omega⟩

/-- C7: a date header that is not strictly greater than the date of the
last existing day section aborts processing with the date-order error
carrying the offending line's index, and consequently the section dates
of any accepted journal are strictly increasing. -/
theorem process_date_order :
    (∀ (n dd : Nat) (s : ProcState) (d0 : Nat) (ivs0 : List (Nat × Nat)),
        s.intervals_by_date.getLast? = some (d0, ivs0) → dd ≤ d0 →
        processStep n (Line.date dd) s =
          Except.error (IntervalError.dateOrder n)) ∧
      ∀ (today now : Nat) (lines : List Line)
        (result : List (Nat × List (Nat × Nat))),
        process today now lines = Except.ok result →
        List.Chain' (· < ·) (result.map Prod.fst) := by
  refine ⟨processStep_date_err, ?_⟩
  intro today now lines result hok
  unfold process at hok
  cases hpl : processLines 0 lines ⟨none, none, []⟩ with
  | error e =>
      rw [hpl] at hok
      exact Except.noConfusion hok
  | ok s =>
      rw [hpl] at hok
      have hok2 : Except.ok (finishProcess today now s) = Except.ok result := hok
      have hres : finishProcess today now s = result := by injection hok2
      have hA := processLines_invA lines 0 _ s invA_init hpl
      rw [← hres, finishProcess_map_fst]
      exact hA.2.2

/-- C7 witness: a repeated-or-earlier date header errors with the line
index, and an accepted two-day journal has strictly increasing dates. -/
theorem process_date_order_witness :
    processStep 1 (Line.date 5) ⟨some 6, none, [(6, [])]⟩ =
        Except.error (IntervalError.dateOrder 1) ∧
      List.Chain' (· < ·)
        (([(3, []), (7, [])] : List (Nat × List (Nat × Nat))).map Prod.fst) :=
  ⟨process_date_order.1 1 5 _ 6 [] rfl (by omega),
    process_date_order.2 0 0 [Line.date 3, Line.date 7] [(3, []), (7, [])] (by rfl)⟩

/-- C1 (amended): for every journal accepted by `process` (marker times
are valid HH:MM values; now lies on today), every interval of every
returned day section satisfies start ≤ end — equality is possible when a
start and an end carry the same timestamp, so the claimed strict
start < end fails (see the counterexample) — and each interval lies in
the day section current at its close: it starts before the end of that
section's date and ends within that date or, by overnight rollover, the
following day. -/
theorem process_intervals_in_sections
    (today now : Nat) (lines : List Line)
    (hwf : ∀ l ∈ lines, l.wf)
    (hn1 : today * 1440 ≤ now) (hn2 : now < (today + 1) * 1440)
    (result : List (Nat × List (Nat × Nat)))
    (hok : process today now lines = Except.ok result) :
    ∀ sec ∈ result, ∀ iv ∈ sec.2,
      iv.1 ≤ iv.2 ∧ iv.1 < (sec.1 + 1) * 1440 ∧
        sec.1 * 1440 ≤ iv.2 ∧ iv.2 < (sec.1 + 2) * 1440 := by
  unfold process at hok
  cases hpl : processLines 0 lines ⟨none, none, []⟩ with
  | error e =>
      rw [hpl] at hok
      exact Except.noConfusion hok
  | ok s =>
      rw [hpl] at hok
      have hok2 : Except.ok (finishProcess today now s) = Except.ok result := hok
      have hres : finishProcess today now s = result := by injection hok2
      have hA := processLines_invA lines 0 _ s invA_init hpl
      have hB := processLines_invB lines 0 _ s hwf invA_init invB_init hpl
      rw [← hres]
      exact finishProcess_sectionsWF today now s hA hB hn1 hn2

/-- C1 witness: the accepted one-day journal start 09:00 / end 10:00 on
day 5 yields the interval (7740, 7800) inside day 5's bounds. -/
theorem process_intervals_in_sections_witness :
    7740 ≤ 7800 ∧ 7740 < (5 + 1) * 1440 ∧ 5 * 1440 ≤ 7800 ∧ 7800 < (5 + 2) * 1440 :=
  process_intervals_in_sections 5 7200
    [Line.date 5, Line.mark Action.start 540, Line.mark Action.stop 600]
    (by decide) (by omega) (by omega) [(5, [(7740, 7800)])] (by rfl)
    (5, [(7740, 7800)]) (List.mem_singleton.2 rfl)
    (7740, 7800) (List.mem_singleton.2 rfl)

/-- C1 counterexample: the journal 2024-01-05 / start 10:00 / end 10:00
is accepted and yields an interval whose start equals its end, refuting
the claimed strict start < end. -/
theorem process_intervals_in_sections_cex :
    process 0 0 [Line.date 738890, Line.mark .start 600, Line.mark .stop 600] =
        Except.ok [(738890, [(738890 * 1440 + 600, 738890 * 1440 + 600)])] ∧
      ¬(738890 * 1440 + 600 < 738890 * 1440 + 600) :=
  ⟨by rfl, by omega⟩

theorem main_run_ok (args : Args) (today now : Nat) (lines : List Line)
    (ibd : List (Nat × List (Nat × Nat)))
    (hok : process today now lines = Except.ok ibd)
    (hval : badRangeArgs args today = false) :
    main_run args today now lines =
      match (match args.start_arg with
             | some sd => some sd
             | none => (filterSections args.start_arg (endDateOf args today)
                 ibd).head?.map Prod.fst) with
      | none => MainOutcome.noIntervalsFound
      | some _ =>
          if args.json then
            MainOutcome.jsonOutput (filterSections args.start_arg
              (endDateOf args today) ibd)
          else if interval_sum (allIntervals (filterSections args.start_arg
              (endDateOf args today) ibd)) = 0 then MainOutcome.noHours
          else if retainerTruthy args && args.rate.isNone then
            MainOutcome.retainerTypeError
          else MainOutcome.report := by
  unfold main_run
  rw [hok, hval]
  simp

/-- C8 (amended): with valid arguments and a journal that parses, in text
mode a zero total duration over the filtered range produces the "No hours
recorded." report with exit status 1 whenever a start date is
determinable (a start argument was given, or the filtered result is
nonempty); an empty filtered result with no start argument instead aborts
with the uncaught ValueError (still a nonzero exit, but a traceback, not
the report); in JSON mode the zero-hours check is skipped entirely and
the run exits 0 (see the counterexample); otherwise — nonzero total and
not a truthy retainer without a rate — the run exits 0. -/
theorem main_zero_hours (args : Args) (today now : Nat) (lines : List Line)
    (ibd : List (Nat × List (Nat × Nat)))
    (hok : process today now lines = Except.ok ibd)
    (hval : badRangeArgs args today = false) :
    (args.json = false →
      (args.start_arg ≠ none ∨
        filterSections args.start_arg (endDateOf args today) ibd ≠ []) →
      interval_sum (allIntervals (filterSections args.start_arg
        (endDateOf args today) ibd)) = 0 →
      main_run args today now lines = MainOutcome.noHours ∧
        MainOutcome.noHours.exitCode = 1) ∧
      (args.json = false → args.start_arg = none →
        filterSections args.start_arg (endDateOf args today) ibd = [] →
        main_run args today now lines = MainOutcome.noIntervalsFound ∧
          MainOutcome.noIntervalsFound.exitCode = 1) ∧
      (args.json = true →
        (args.start_arg ≠ none ∨
          filterSections args.start_arg (endDateOf args today) ibd ≠ []) →
        main_run args today now lines =
          MainOutcome.jsonOutput (filterSections args.start_arg
            (endDateOf args today) ibd) ∧
          MainOutcome.exitCode (MainOutcome.jsonOutput (filterSections
            args.start_arg (endDateOf args today) ibd)) = 0) ∧
      (args.json = false →
        interval_sum (allIntervals (filterSections args.start_arg
          (endDateOf args today) ibd)) ≠ 0 →
        (retainerTruthy args && args.rate.isNone) = false →
        main_run args today now lines = MainOutcome.report ∧
          MainOutcome.report.exitCode = 0) := by
  have hmain := main_run_ok args today now lines ibd hok hval
  refine ⟨?_, ?_, ?_, ?_⟩
  · intro hjson hstart htot
    refine ⟨?_, rfl⟩
    rw [hmain]
    cases hsa : args.start_arg with
    | some sd =>
        rw [hsa] at htot
        simp [hjson, htot]
    | none =>
        rcases hstart with hne | hne
        · exact absurd hsa hne
        · rw [hsa] at htot hne
          cases hF : filterSections none (endDateOf args today) ibd with
          | nil => exact absurd hF hne
          | cons x rest =>
              rw [hF] at htot
              simp [hjson, htot]
  · intro hjson hsa hF
    rw [hmain]
    rw [hsa] at hF ⊢
    rw [hF]
    exact ⟨rfl, rfl⟩
  · intro hjson hstart
    refine ⟨?_, rfl⟩
    rw [hmain]
    cases hsa : args.start_arg with
    | some sd => simp [hjson]
    | none =>
        rcases hstart with hne | hne
        · exact absurd hsa hne
        · rw [hsa] at hne
          cases hF : filterSections none (endDateOf args today) ibd with
          | nil => exact absurd hF hne
          | cons x rest => simp [hjson]
  · intro hjson htot hrr
    refine ⟨?_, rfl⟩
    rw [hmain]
    have hF : filterSections args.start_arg (endDateOf args today) ibd ≠ [] := by
      intro hF0
      apply htot
      rw [hF0]
      rfl
    cases hsa : args.start_arg with
    | some sd =>
        rw [hsa] at htot
        simp [hjson, htot, hrr]
    | none =>
        rw [hsa] at htot hF
        cases hFc : filterSections none (endDateOf args today) ibd with
        | nil => exact absurd hFc hF
        | cons x rest =>
            rw [hFc] at htot
            simp [hjson, htot, hrr]

/-- C8 witness: a run in text mode with a start argument and an empty
journal has zero hours in range and produces the failing "No hours
recorded." outcome. -/
theorem main_zero_hours_witness :
    main_run ⟨false, none, false, none, some 5, some 5⟩ 0 0 [] =
        MainOutcome.noHours ∧
      MainOutcome.noHours.exitCode = 1 :=
  (main_zero_hours ⟨false, none, false, none, some 5, some 5⟩ 0 0 [] []
          (by rfl) (by rfl)).1
    rfl (Or.inl (by simp)) (by rfl)

/-- C8 counterexample: the same zero-hours run in JSON mode prints the
(empty) JSON document and exits 0 — no "no hours recorded" report and no
failure status, refuting the claim for JSON output. -/
theorem main_zero_hours_cex :
    main_run ⟨true, none, false, none, some 5, some 5⟩ 0 0 [] =
        MainOutcome.jsonOutput [] ∧
      MainOutcome.exitCode (MainOutcome.jsonOutput []) = 0 ∧
      interval_sum (allIntervals (filterSections (some 5) 5 [])) = 0 :=
  ⟨by rfl, by rfl, by rfl⟩

end JournalHours
